import Mathlib

/-!
Verification of the tree-view / kanban-board mutation core.

The definitions below are a shallow embedding of the functions in
`src/src/App.tsx`: the tree mutation engine (`removeNode`, `insertAsChild`,
`updateNodeLabel`, `attachChildren`), the lazy-load simulator
(`generateChildren`, `toggleExpand` and the scheduled delivery), the tree-view
controller handlers (`handleDelete`, `handleAddChild`, `handleDrop`) and the
kanban controller handlers (`handleAddCard`, `handleDeleteCard`,
`handleDropCard`).  JavaScript `undefined`-able fields become `Option`s,
the `Set` state becomes a duplicate-free insertion-ordered list, the
`setTimeout` delivery becomes an explicit pending-delivery queue, and the
`onChange` callback becomes an explicit list of emitted states.
-/

/-- The `TreeNode` record of the source: `id`, `label`, optional `children`,
optional `hasChildren`. -/
inductive TreeNode : Type where
  | mk (id : String) (label : String) (children : Option (List TreeNode))
      (hasChildren : Option Bool)

def TreeNode.id : TreeNode → String
  | .mk i _ _ _ => i

def TreeNode.label : TreeNode → String
  | .mk _ l _ _ => l

def TreeNode.children : TreeNode → Option (List TreeNode)
  | .mk _ _ c _ => c

def TreeNode.hasChildren : TreeNode → Option Bool
  | .mk _ _ _ b => b

/-- Embedding of the source function removeNode: walks the forest; a node whose id matches is
skipped (its whole subtree dropped) and recorded as `removed` (a later match
overwrites an earlier one, as the loop keeps reassigning `removed`); other
nodes are rebuilt with their children filtered recursively. -/
def removeNode : List TreeNode → String → List TreeNode × Option TreeNode
  | [], _ => ([], none)
  | TreeNode.mk i l c h :: rest, nodeId =>
    if i = nodeId then
      match removeNode rest nodeId with
      | (next, some laterRemoved) => (next, some laterRemoved)
      | (next, none) => (next, some (TreeNode.mk i l c h))
    else
      match c with
      | some cs =>
        match removeNode cs nodeId, removeNode rest nodeId with
        | (childNext, childRemoved), (restNext, restRemoved) =>
          (TreeNode.mk i l (some childNext) h :: restNext,
            match restRemoved with
            | some r => some r
            | none => childRemoved)
      | none =>
        match removeNode rest nodeId with
        | (restNext, restRemoved) => (TreeNode.mk i l none h :: restNext, restRemoved)

/-- The recursive `nodes.map` body of the source's `insertAsChild` for a
non-null parent id: every node whose id matches gains `child` appended to its
children (children list created if absent); non-matching nodes recurse. -/
def insertAsChildAux : List TreeNode → String → TreeNode → List TreeNode
  | [], _, _ => []
  | TreeNode.mk i l c h :: rest, parentId, child =>
    if i = parentId then
      let children := match c with
        | some cs => cs ++ [child]
        | none => [child]
      TreeNode.mk i l (some children) h :: insertAsChildAux rest parentId child
    else
      match c with
      | some cs =>
        TreeNode.mk i l (some (insertAsChildAux cs parentId child)) h ::
          insertAsChildAux rest parentId child
      | none => TreeNode.mk i l none h :: insertAsChildAux rest parentId child

/-- Embedding of the source function insertAsChild: `parentId = none` appends the child as a
new root, otherwise the recursive map `insertAsChildAux` runs. -/
def insertAsChild (nodes : List TreeNode) (parentId : Option String)
    (child : TreeNode) : List TreeNode :=
  match parentId with
  | none => nodes ++ [child]
  | some pid => insertAsChildAux nodes pid child

/-- Embedding of the source function updateNodeLabel: every node whose id matches gets the new
label (its subtree untouched); non-matching nodes recurse. -/
def updateNodeLabel : List TreeNode → String → String → List TreeNode
  | [], _, _ => []
  | TreeNode.mk i l c h :: rest, nodeId, label =>
    if i = nodeId then
      TreeNode.mk i label c h :: updateNodeLabel rest nodeId label
    else
      match c with
      | some cs =>
        TreeNode.mk i l (some (updateNodeLabel cs nodeId label)) h ::
          updateNodeLabel rest nodeId label
      | none => TreeNode.mk i l none h :: updateNodeLabel rest nodeId label

/-- Embedding of the source function attachChildren: every node whose id matches has its
children replaced wholesale; non-matching nodes recurse. -/
def attachChildren : List TreeNode → String → List TreeNode → List TreeNode
  | [], _, _ => []
  | TreeNode.mk i l c h :: rest, nodeId, children =>
    if i = nodeId then
      TreeNode.mk i l (some children) h :: attachChildren rest nodeId children
    else
      match c with
      | some cs =>
        TreeNode.mk i l (some (attachChildren cs nodeId children)) h ::
          attachChildren rest nodeId children
      | none => TreeNode.mk i l none h :: attachChildren rest nodeId children

/-- The letter table of `generateChildren`. -/
def letters : List String := ["A", "B", "C", "D", "E"]

/-- Embedding of the source function generateChildren: exactly two synthetic children with ids
`parentId-1` and `parentId-2`, labels from the rotating letter table at index
`(i + depth) % 5`, and `hasChildren` set when `depth < 3`. -/
def generateChildren (parentId : String) (depth : Nat) : List TreeNode :=
  (List.range 2).map fun i =>
    TreeNode.mk (parentId ++ "-" ++ toString (i + 1))
      (letters.getD ((i + depth) % letters.length) "")
      none
      (some (decide (depth < 3)))

/-- Insertion-ordered `Set.add` of the source's id sets. -/
def setAdd (s : List String) (x : String) : List String :=
  if x ∈ s then s else s ++ [x]

/-- Deletion from the source's id sets (JavaScript Set.delete). -/
def setDel (s : List String) (x : String) : List String :=
  s.filter (fun y => decide (y ≠ x))

/-- The depth computed by `toggleExpand`: `node.id.split("-").length`. -/
def nodeDepth (nodeId : String) : Nat := (nodeId.splitOn "-").length

/-- The tree-view controller state: the forest, the expanded-id set, the
in-flight-load id set, and the queue of scheduled lazy-load deliveries.  A
pending entry holds the node id, the scheduled delay in milliseconds and the
children computed at scheduling time. -/
structure TreeState where
  tree : List TreeNode
  expanded : List String
  loading : List String
  pending : List (String × Nat × List TreeNode)

/-- Embedding of the source function toggleExpand: collapse when expanded; otherwise mark
expanded and, for a placeholder (`!node.children && node.hasChildren`) that is
not already loading, enter the loading set and schedule one delivery of
`generateChildren(node.id, depth)` after 500 ms. -/
def toggleExpand (s : TreeState) (node : TreeNode) : TreeState :=
  if node.id ∈ s.expanded then
    { s with expanded := setDel s.expanded node.id }
  else
    let s1 := { s with expanded := setAdd s.expanded node.id }
    if node.children.isNone = true ∧ node.hasChildren = some true ∧
        node.id ∉ s.loading then
      let depth := nodeDepth node.id
      let generated := generateChildren node.id depth
      { s1 with
        loading := setAdd s1.loading node.id
        pending := s1.pending ++ [(node.id, 500, generated)] }
    else s1

/-- Firing the head of the pending-delivery queue: the source's `setTimeout`
callback removes the id from the loading set, attaches the generated children
and always invokes `onChange` with the new tree. -/
def deliverFirst (s : TreeState) : TreeState × List (List TreeNode) :=
  match s.pending with
  | [] => (s, [])
  | (nid, _, gen) :: rest =>
    let nextTree := attachChildren s.tree nid gen
    ({ tree := nextTree, expanded := s.expanded,
       loading := setDel s.loading nid, pending := rest },
     [nextTree])

/-- Embedding of the source handler handleDelete: abort when the confirmation collaborator
declines; otherwise commit `removeNode(tree, nodeId).next` and notify, with no
check that anything was removed. -/
def handleDelete (tree : List TreeNode) (nodeId : String) (confirmed : Bool) :
    List TreeNode × List (List TreeNode) :=
  if confirmed then
    let next := (removeNode tree nodeId).1
    (next, [next])
  else (tree, [])

/-- Embedding of the source handler handleAddChild: abort when the prompt collaborator
returns `null` or the empty string (the `!label` check — no trimming);
otherwise insert a fresh leaf node with id `(parentId or root)-(Date.now())`. -/
def handleAddChild (tree : List TreeNode) (parentId : Option String)
    (promptResult : Option String) (now : Nat) :
    List TreeNode × List (List TreeNode) :=
  match promptResult with
  | none => (tree, [])
  | some label =>
    if label = "" then (tree, [])
    else
      let newId := (parentId.getD "root") ++ "-" ++ toString now
      let next := insertAsChild tree parentId (TreeNode.mk newId label none (some false))
      (next, [next])

/-- Embedding of the source handler handleLabelChange: commit `updateNodeLabel` and notify. -/
def handleLabelChange (tree : List TreeNode) (nodeId label : String) :
    List TreeNode × List (List TreeNode) :=
  let next := updateNodeLabel tree nodeId label
  (next, [next])

/-- Embedding of the tree view's handleDrop: abort when the dragged id equals the target
id or when `removeNode` removed nothing; otherwise commit
`insertAsChild(next, targetId, removed)` and notify once. -/
def handleDrop (tree : List TreeNode) (draggedId : String)
    (targetId : Option String) : List TreeNode × List (List TreeNode) :=
  if targetId = some draggedId then (tree, [])
  else
    let r := removeNode tree draggedId
    match r.2 with
    | none => (tree, [])
    | some removed =>
      let nextTree := insertAsChild r.1 targetId removed
      (nextTree, [nextTree])

/-- The committed tree of a tree-view drop (`moveNode` of the spec). -/
def moveNode (tree : List TreeNode) (draggedId : String)
    (targetId : Option String) : List TreeNode :=
  (handleDrop tree draggedId targetId).1

/-- The closed set of kanban column ids. -/
inductive ColumnId : Type where
  | todo
  | inProgress
  | done
deriving DecidableEq

/-- A kanban card. -/
structure Card where
  id : String
  title : String
deriving DecidableEq

/-- A kanban column. -/
structure Column where
  id : ColumnId
  title : String
  cards : List Card
deriving DecidableEq

/-- The string form of a column id used in generated card ids. -/
def columnIdStr : ColumnId → String
  | .todo => "todo"
  | .inProgress => "in-progress"
  | .done => "done"

/-- The source's lookup of the moving card: find the source column in the
pre-move state, then find the card by id inside it. -/
def movingCardIn (state : List Column) (fromColumnId : ColumnId)
    (cardId : String) : Option Card :=
  (state.find? (fun col => decide (col.id = fromColumnId))).bind
    (fun col => col.cards.find? (fun c => decide (c.id = cardId)))

/-- The kanban `handleDrop`: abort on an empty card id or when source and
target columns coincide; otherwise rebuild every column in one map — the
source column filters the card id out, the target column appends the card
looked up in the pre-move state — and notify once. -/
def handleDropCard (state : List Column) (cardId : String)
    (fromColumnId targetColumnId : ColumnId) :
    List Column × List (List Column) :=
  if cardId = "" then (state, [])
  else if fromColumnId = targetColumnId then (state, [])
  else
    let next := state.map fun col =>
      if col.id = fromColumnId then
        { col with cards := col.cards.filter (fun c => decide (c.id ≠ cardId)) }
      else if col.id = targetColumnId then
        match movingCardIn state fromColumnId cardId with
        | none => col
        | some movingCard => { col with cards := col.cards ++ [movingCard] }
      else col
    (next, [next])

/-- The committed board of a kanban drop (`moveCard` of the spec). -/
def moveCard (state : List Column) (cardId : String)
    (fromColumnId targetColumnId : ColumnId) : List Column :=
  (handleDropCard state cardId fromColumnId targetColumnId).1

/-- Embedding of the source handler handleAddCard: abort when the prompt collaborator returns
`null` or the empty string (the `!title` check — no trimming); otherwise append
a fresh card to the matching column. -/
def handleAddCard (state : List Column) (columnId : ColumnId)
    (promptResult : Option String) (now : Nat) :
    List Column × List (List Column) :=
  match promptResult with
  | none => (state, [])
  | some title =>
    if title = "" then (state, [])
    else
      let newId := columnIdStr columnId ++ "-" ++ toString now
      let next := state.map fun col =>
        if col.id = columnId then { col with cards := col.cards ++ [⟨newId, title⟩] }
        else col
      (next, [next])

/-- Embedding of the source handler handleDeleteCard: filter the card out of the named
column and notify (no confirmation, no existence check). -/
def handleDeleteCard (state : List Column) (columnId : ColumnId)
    (cardId : String) : List Column × List (List Column) :=
  let next := state.map fun col =>
    if col.id = columnId then
      { col with cards := col.cards.filter (fun c => decide (c.id ≠ cardId)) }
    else col
  (next, [next])

mutual

/-- Pre-order (document-order) list of the ids of one node and its subtree. -/
def ids1 : TreeNode → List String
  | TreeNode.mk i _ none _ => [i]
  | TreeNode.mk i _ (some cs) _ => i :: idsL cs

/-- Pre-order list of all ids of a forest. -/
def idsL : List TreeNode → List String
  | [] => []
  | n :: rest => ids1 n ++ idsL rest
end

/-- Ids of an optional removed subtree. -/
def idsOpt : Option TreeNode → List String
  | none => []
  | some r => ids1 r

/-- Whether some node with id `parentId` has a direct child with id
`childId` somewhere in the forest. -/
def hasChildWithId : List TreeNode → String → String → Bool
  | [], _, _ => false
  | TreeNode.mk i _ c _ :: rest, parentId, childId =>
    (decide (i = parentId) && (match c with
      | none => false
      | some cs => cs.any (fun n => decide (n.id = childId))))
    || (match c with
        | none => false
        | some cs => hasChildWithId cs parentId childId)
    || hasChildWithId rest parentId childId

/-- Total number of cards on the board. -/
def totalCards (state : List Column) : Nat :=
  (state.map (fun col => col.cards.length)).sum

/-- Number of occurrences of a card id inside one card list. -/
def countCardIn (cards : List Card) (cardId : String) : Nat :=
  (cards.filter (fun c => decide (c.id = cardId))).length

/-- Number of occurrences of a card id over the whole board. -/
def countCard (state : List Column) (cardId : String) : Nat :=
  (state.map (fun col => countCardIn col.cards cardId)).sum

/-- The board shape of the application: one column per id of the closed set,
in the fixed order of the initial state. -/
def board3 (t1 t2 t3 : String) (cs1 cs2 cs3 : List Card) : List Column :=
  [⟨ColumnId.todo, t1, cs1⟩, ⟨ColumnId.inProgress, t2, cs2⟩, ⟨ColumnId.done, t3, cs3⟩]

/-- The card sequence of the drop target after a move: the card found in the
source cards (if any) is appended. -/
def targetAfter (csf cst : List Card) (cid : String) : List Card :=
  match csf.find? (fun c => decide (c.id = cid)) with
  | none => cst
  | some mc => cst ++ [mc]

/-- Maximal matches of an id in document order: every node whose id matches
and that is not nested inside another matching node, listed as the
id-searching operations encounter them (a matched node's subtree is not
searched further, mirroring how each operation stops at a match). -/
def matchesOf : List TreeNode → String → List TreeNode
  | [], _ => []
  | TreeNode.mk i l c h :: rest, x =>
    if i = x then TreeNode.mk i l c h :: matchesOf rest x
    else
      (match c with
        | some cs => matchesOf cs x
        | none => []) ++ matchesOf rest x

theorem idsL_append (a b : List TreeNode) : idsL (a ++ b) = idsL a ++ idsL b := by
  induction a with
  | nil => simp [idsL]
  | cons n rest ih => simp [idsL, ih]

theorem removeNode_not_mem (nodes : List TreeNode) (x : String) (hx : x ∉ idsL nodes) :
    removeNode nodes x = (nodes, none) := by
  induction nodes, x using removeNode.induct with
  | case1 x => simp [removeNode]
  | case2 l c h rest nodeId next r heq ih1 =>
    exfalso
    apply hx
    cases c <;> simp [idsL, ids1]
  | case3 l c h rest nodeId next heq ih1 =>
    exfalso
    apply hx
    cases c <;> simp [idsL, ids1]
  | case4 i l h1 rest nodeId hne cs childNext childRemoved restNext restRemoved heqR heqC ih2 ih1 =>
    simp [idsL, ids1] at hx
    have hc : (childNext, childRemoved) = (cs, (none : Option TreeNode)) := by
      rw [← heqC]; exact ih2 hx.2.1
    have hr : (restNext, restRemoved) = (rest, (none : Option TreeNode)) := by
      rw [← heqR]; exact ih1 hx.2.2
    injection hc with hc1 hc2
    injection hr with hr1 hr2
    subst hc1; subst hc2; subst hr1; subst hr2
    simp [removeNode, hne, heqC, heqR]
  | case5 i l h1 rest nodeId hne restNext restRemoved heqR ih1 =>
    simp [idsL, ids1] at hx
    have hr : (restNext, restRemoved) = (rest, (none : Option TreeNode)) := by
      rw [← heqR]; exact ih1 hx.2
    injection hr with hr1 hr2
    subst hr1; subst hr2
    simp [removeNode, hne, heqR]

theorem removeNode_removed_id (nodes : List TreeNode) (x : String)
    (next : List TreeNode) (r : TreeNode)
    (hr : removeNode nodes x = (next, some r)) : r.id = x := by
  induction nodes, x using removeNode.induct generalizing next r with
  | case1 x => simp [removeNode] at hr
  | case2 l c h rest nodeId next2 r2 heq ih1 =>
    cases c
    all_goals (
      simp [removeNode, heq] at hr
      obtain ⟨hr1, hr2⟩ := hr
      subst hr2
      exact ih1 next2 r2 heq)
  | case3 l c h rest nodeId next2 heq ih1 =>
    cases c
    all_goals (
      simp [removeNode, heq] at hr
      obtain ⟨hr1, hr2⟩ := hr
      subst hr2
      rfl)
  | case4 i l h1 rest nodeId hne cs childNext childRemoved restNext restRemoved heqR heqC ih2 ih1 =>
    cases restRemoved with
    | some rr =>
      simp [removeNode, hne, heqC, heqR] at hr
      obtain ⟨hr1, hr2⟩ := hr
      subst hr2
      exact ih1 restNext rr heqR
    | none =>
      simp [removeNode, hne, heqC, heqR] at hr
      obtain ⟨hr1, hr2⟩ := hr
      rw [hr2] at heqC
      exact ih2 childNext r heqC
  | case5 i l h1 rest nodeId hne restNext restRemoved heqR ih1 =>
    simp [removeNode, hne, heqR] at hr
    obtain ⟨hr1, hr2⟩ := hr
    rw [hr2] at heqR
    exact ih1 restNext r heqR

theorem removeNode_mem_some (nodes : List TreeNode) (x : String) (hx : x ∈ idsL nodes) :
    ∃ next r, removeNode nodes x = (next, some r) := by
  induction nodes, x using removeNode.induct with
  | case1 x => simp [idsL] at hx
  | case2 l c h rest nodeId next r heq ih1 =>
    exact ⟨next, r, by cases c <;> simp [removeNode, heq]⟩
  | case3 l c h rest nodeId next heq ih1 =>
    exact ⟨next, TreeNode.mk nodeId l c h, by cases c <;> simp [removeNode, heq]⟩
  | case4 i l h1 rest nodeId hne cs childNext childRemoved restNext restRemoved heqR heqC ih2 ih1 =>
    simp [idsL, ids1] at hx
    rcases hx with hx | hx | hx
    · exact absurd hx.symm hne
    · obtain ⟨n2, r2, hc⟩ := ih2 hx
      rw [heqC] at hc
      injection hc with hc1 hc2
      subst hc1; subst hc2
      cases restRemoved with
      | some rr =>
        exact ⟨TreeNode.mk i l (some childNext) h1 :: restNext, rr, by
          simp [removeNode, hne, heqC, heqR]⟩
      | none =>
        exact ⟨TreeNode.mk i l (some childNext) h1 :: restNext, r2, by
          simp [removeNode, hne, heqC, heqR]⟩
    · obtain ⟨n2, r2, hc⟩ := ih1 hx
      rw [heqR] at hc
      injection hc with hc1 hc2
      subst hc1; subst hc2
      exact ⟨TreeNode.mk i l (some childNext) h1 :: restNext, r2, by
        simp [removeNode, hne, heqC, heqR]⟩
  | case5 i l h1 rest nodeId hne restNext restRemoved heqR ih1 =>
    simp [idsL, ids1] at hx
    rcases hx with hx | hx
    · exact absurd hx.symm hne
    · obtain ⟨n2, r2, hc⟩ := ih1 hx
      rw [heqR] at hc
      injection hc with hc1 hc2
      subst hc1; subst hc2
      exact ⟨TreeNode.mk i l none h1 :: restNext, r2, by simp [removeNode, hne, heqR]⟩

theorem perm_append_shuffle {α : Type} (a b d c : List α)
    (hp : List.Perm (a ++ d) c) : List.Perm ((a ++ b) ++ d) (c ++ b) := by
  have h1 : List.Perm ((a ++ b) ++ d) ((a ++ d) ++ b) := by
    rw [List.append_assoc, List.append_assoc]
    exact List.Perm.append_left a List.perm_append_comm
  exact h1.trans (hp.append_right b)

theorem perm_append_shuffle2 {α : Type} (a b d c : List α)
    (hp : List.Perm (b ++ d) c) : List.Perm ((a ++ b) ++ d) (a ++ c) := by
  rw [List.append_assoc]
  exact List.Perm.append_left a hp

theorem removeNode_perm (nodes : List TreeNode) (x : String)
    (hnd : (idsL nodes).Nodup) (hx : x ∈ idsL nodes) :
    List.Perm (idsL (removeNode nodes x).1 ++ idsOpt (removeNode nodes x).2)
      (idsL nodes) := by
  induction nodes, x using removeNode.induct with
  | case1 x => simp [idsL] at hx
  | case2 l c h rest nodeId next r heq ih1 =>
    exfalso
    have hnotin : nodeId ∉ idsL rest := by
      cases c <;> (simp [idsL, ids1, List.nodup_cons, List.nodup_append] at hnd; tauto)
    have h2 := removeNode_not_mem rest nodeId hnotin
    rw [heq] at h2
    simp at h2
  | case3 l c h rest nodeId next heq ih1 =>
    have hnotin : nodeId ∉ idsL rest := by
      cases c <;> (simp [idsL, ids1, List.nodup_cons, List.nodup_append] at hnd; tauto)
    have h2 := removeNode_not_mem rest nodeId hnotin
    rw [heq] at h2
    injection h2 with h21 h22
    cases c with
    | none =>
      have hgoal : removeNode (TreeNode.mk nodeId l none h :: rest) nodeId
          = (rest, some (TreeNode.mk nodeId l none h)) := by
        simp [removeNode, heq, h21]
      rw [hgoal]
      simp only [idsL, ids1, idsOpt]
      exact List.perm_append_comm
    | some cs =>
      have hgoal : removeNode (TreeNode.mk nodeId l (some cs) h :: rest) nodeId
          = (rest, some (TreeNode.mk nodeId l (some cs) h)) := by
        simp [removeNode, heq, h21]
      rw [hgoal]
      simp only [idsL, ids1, idsOpt]
      exact List.perm_append_comm
  | case4 i l h1 rest nodeId hne cs childNext childRemoved restNext restRemoved heqR heqC ih2 ih1 =>
    have hnd' := hnd
    simp only [idsL, ids1, List.cons_append] at hnd'
    have hni := (List.nodup_cons.mp hnd').1
    have hrest := (List.nodup_cons.mp hnd').2
    have hdisj := List.disjoint_of_nodup_append hrest
    have hndc := (List.nodup_append.mp hrest).1
    have hndr := (List.nodup_append.mp hrest).2.1
    simp [idsL, ids1] at hx
    rcases hx with hx | hx | hx
    · exact absurd hx.symm hne
    · have hnotr : nodeId ∉ idsL rest := hdisj hx
      have h2 := removeNode_not_mem rest nodeId hnotr
      rw [heqR] at h2
      injection h2 with h21 h22
      have hperm := ih2 hndc hx
      rw [heqC] at hperm
      have hgoal : removeNode (TreeNode.mk i l (some cs) h1 :: rest) nodeId
          = (TreeNode.mk i l (some childNext) h1 :: rest, childRemoved) := by
        simp [removeNode, hne, heqC, heqR, h21, h22]
      rw [hgoal]
      simp only [idsL, ids1]
      exact perm_append_shuffle (i :: idsL childNext) (idsL rest)
        (idsOpt childRemoved) (i :: idsL cs) (hperm.cons i)
    · have hnotc : nodeId ∉ idsL cs := fun hc => hdisj hc hx
      have h2 := removeNode_not_mem cs nodeId hnotc
      rw [heqC] at h2
      injection h2 with h21 h22
      have hperm := ih1 hndr hx
      rw [heqR] at hperm
      cases restRemoved with
      | some rr =>
        have hgoal : removeNode (TreeNode.mk i l (some cs) h1 :: rest) nodeId
            = (TreeNode.mk i l (some cs) h1 :: restNext, some rr) := by
          simp [removeNode, hne, heqC, heqR, h21]
        rw [hgoal]
        simp only [idsL, ids1]
        exact perm_append_shuffle2 (i :: idsL cs) (idsL restNext)
          (idsOpt (some rr)) (idsL rest) hperm
      | none =>
        have hgoal : removeNode (TreeNode.mk i l (some cs) h1 :: rest) nodeId
            = (TreeNode.mk i l (some cs) h1 :: restNext, childRemoved) := by
          simp [removeNode, hne, heqC, heqR, h21]
        rw [hgoal, h22]
        simp only [idsL, ids1]
        exact perm_append_shuffle2 (i :: idsL cs) (idsL restNext)
          (idsOpt none) (idsL rest) hperm
  | case5 i l h1 rest nodeId hne restNext restRemoved heqR ih1 =>
    have hnd' := hnd
    simp only [idsL, ids1, List.cons_append] at hnd'
    have hni := (List.nodup_cons.mp hnd').1
    have hndr := (List.nodup_cons.mp hnd').2
    simp [idsL, ids1] at hx
    rcases hx with hx | hx
    · exact absurd hx.symm hne
    · have hperm := ih1 hndr hx
      rw [heqR] at hperm
      have hgoal : removeNode (TreeNode.mk i l none h1 :: rest) nodeId
          = (TreeNode.mk i l none h1 :: restNext, restRemoved) := by
        simp [removeNode, hne, heqR]
      rw [hgoal]
      simp only [idsL, ids1]
      exact perm_append_shuffle2 [i] (idsL restNext) (idsOpt restRemoved)
        (idsL rest) hperm

theorem insertAsChildAux_not_mem (nodes : List TreeNode) (p : String) (child : TreeNode)
    (hp : p ∉ idsL nodes) : insertAsChildAux nodes p child = nodes := by
  induction nodes, p, child using insertAsChildAux.induct with
  | case1 p child => simp [insertAsChildAux]
  | case2 l c h rest pid child ih1 =>
    exfalso
    apply hp
    cases c <;> simp [idsL, ids1]
  | case3 i l h1 rest pid child hne cs ih2 ih1 =>
    simp [idsL, ids1] at hp
    simp [insertAsChildAux, hne, ih2 hp.2.1, ih1 hp.2.2]
  | case4 i l h1 rest pid child hne ih1 =>
    simp [idsL, ids1] at hp
    simp [insertAsChildAux, hne, ih1 hp.2]

theorem updateNodeLabel_not_mem (nodes : List TreeNode) (x label : String)
    (hx : x ∉ idsL nodes) : updateNodeLabel nodes x label = nodes := by
  induction nodes, x, label using updateNodeLabel.induct with
  | case1 x label => simp [updateNodeLabel]
  | case2 l c h rest x label ih1 =>
    exfalso
    apply hx
    cases c <;> simp [idsL, ids1]
  | case3 i l h1 rest x label hne cs ih2 ih1 =>
    simp [idsL, ids1] at hx
    simp [updateNodeLabel, hne, ih2 hx.2.1, ih1 hx.2.2]
  | case4 i l h1 rest x label hne ih1 =>
    simp [idsL, ids1] at hx
    simp [updateNodeLabel, hne, ih1 hx.2]

theorem attachChildren_not_mem (nodes : List TreeNode) (x : String)
    (children : List TreeNode) (hx : x ∉ idsL nodes) :
    attachChildren nodes x children = nodes := by
  induction nodes, x, children using attachChildren.induct with
  | case1 x children => simp [attachChildren]
  | case2 l c h rest x children ih1 =>
    exfalso
    apply hx
    cases c <;> simp [idsL, ids1]
  | case3 i l h1 rest x children hne cs ih2 ih1 =>
    simp [idsL, ids1] at hx
    simp [attachChildren, hne, ih2 hx.2.1, ih1 hx.2.2]
  | case4 i l h1 rest x children hne ih1 =>
    simp [idsL, ids1] at hx
    simp [attachChildren, hne, ih1 hx.2]

theorem insertAsChildAux_perm (nodes : List TreeNode) (p : String) (child : TreeNode)
    (hc : (idsL nodes).count p = 1) :
    List.Perm (idsL (insertAsChildAux nodes p child)) (idsL nodes ++ ids1 child) := by
  induction nodes, p, child using insertAsChildAux.induct with
  | case1 p child => simp [idsL] at hc
  | case2 l c h rest pid child ih1 =>
    cases c with
    | none =>
      simp [idsL, ids1, List.count_append, List.count_cons] at hc
      have hrest : (idsL rest).count pid = 0 := by omega
      have hnm : pid ∉ idsL rest := List.count_eq_zero.mp hrest
      have hins : insertAsChildAux rest pid child = rest :=
        insertAsChildAux_not_mem rest pid child hnm
      simp only [insertAsChildAux, if_pos rfl, hins, idsL, ids1]
      simp only [idsL_append, idsL, List.append_nil, List.cons_append]
      exact (List.perm_append_comm.cons pid)
    | some cs =>
      simp [idsL, ids1, List.count_append, List.count_cons] at hc
      have hcs : (idsL cs).count pid = 0 ∧ (idsL rest).count pid = 0 := by omega
      have hnm : pid ∉ idsL rest := List.count_eq_zero.mp hcs.2
      have hins : insertAsChildAux rest pid child = rest :=
        insertAsChildAux_not_mem rest pid child hnm
      simp only [insertAsChildAux, if_pos rfl, hins, idsL, ids1]
      simp only [idsL_append, idsL, List.append_nil, List.cons_append]
      refine List.Perm.cons pid ?_
      exact perm_append_shuffle (idsL cs) (ids1 child) (idsL rest)
        (idsL cs ++ idsL rest) (List.Perm.refl _)
  | case3 i l h1 rest pid child hne cs ih2 ih1 =>
    simp [idsL, ids1, List.count_append, List.count_cons, hne] at hc
    have hsplit : ((idsL cs).count pid = 1 ∧ (idsL rest).count pid = 0) ∨
        ((idsL cs).count pid = 0 ∧ (idsL rest).count pid = 1) := by omega
    rcases hsplit with ⟨hc1, hc2⟩ | ⟨hc1, hc2⟩
    · have hnm : pid ∉ idsL rest := List.count_eq_zero.mp hc2
      have hins : insertAsChildAux rest pid child = rest :=
        insertAsChildAux_not_mem rest pid child hnm
      simp only [insertAsChildAux, if_neg hne, hins, idsL, ids1, List.cons_append]
      refine List.Perm.cons i ?_
      have step1 : List.Perm (idsL (insertAsChildAux cs pid child) ++ idsL rest)
          ((idsL cs ++ ids1 child) ++ idsL rest) :=
        (ih2 hc1).append_right (idsL rest)
      refine step1.trans ?_
      exact perm_append_shuffle (idsL cs) (ids1 child) (idsL rest)
        (idsL cs ++ idsL rest) (List.Perm.refl _)
    · have hnm : pid ∉ idsL cs := List.count_eq_zero.mp hc1
      have hins : insertAsChildAux cs pid child = cs :=
        insertAsChildAux_not_mem cs pid child hnm
      simp only [insertAsChildAux, if_neg hne, hins, idsL, ids1, List.cons_append]
      refine List.Perm.cons i ?_
      rw [List.append_assoc]
      exact List.Perm.append_left (idsL cs) (ih1 hc2)
  | case4 i l h1 rest pid child hne ih1 =>
    simp [idsL, ids1, List.count_append, List.count_cons, hne] at hc
    simp only [insertAsChildAux, if_neg hne, idsL, ids1, List.cons_append]
    refine List.Perm.cons i ?_
    exact ih1 hc

theorem insertAsChildAux_hasChild (nodes : List TreeNode) (p : String) (child : TreeNode)
    (hp : p ∈ idsL nodes) :
    hasChildWithId (insertAsChildAux nodes p child) p child.id = true := by
  induction nodes, p, child using insertAsChildAux.induct with
  | case1 p child => simp [idsL] at hp
  | case2 l c h rest pid child ih1 =>
    cases c <;> simp [insertAsChildAux, hasChildWithId, TreeNode.id]
  | case3 i l h1 rest pid child hne cs ih2 ih1 =>
    simp [idsL, ids1] at hp
    rcases hp with hp | hp | hp
    · exact absurd hp.symm hne
    · simp [insertAsChildAux, hasChildWithId, hne, ih2 hp]
    · simp [insertAsChildAux, hasChildWithId, hne, ih1 hp]
  | case4 i l h1 rest pid child hne ih1 =>
    simp [idsL, ids1] at hp
    rcases hp with hp | hp
    · exact absurd hp.symm hne
    · simp [insertAsChildAux, hasChildWithId, hne, ih1 hp]

theorem removeNode_removes_all (nodes : List TreeNode) (x : String) :
    x ∉ idsL (removeNode nodes x).1 := by
  induction nodes, x using removeNode.induct with
  | case1 x => simp [removeNode, idsL]
  | case2 l c h rest nodeId next r heq ih1 =>
    have hgoal : removeNode (TreeNode.mk nodeId l c h :: rest) nodeId = (next, some r) := by
      cases c <;> simp [removeNode, heq]
    rw [hgoal]
    have h2 := ih1
    rw [heq] at h2
    exact h2
  | case3 l c h rest nodeId next heq ih1 =>
    have hgoal : removeNode (TreeNode.mk nodeId l c h :: rest) nodeId
        = (next, some (TreeNode.mk nodeId l c h)) := by
      cases c <;> simp [removeNode, heq]
    rw [hgoal]
    have h2 := ih1
    rw [heq] at h2
    exact h2
  | case4 i l h1 rest nodeId hne cs childNext childRemoved restNext restRemoved heqR heqC ih2 ih1 =>
    have h2 := ih2
    rw [heqC] at h2
    have h3 := ih1
    rw [heqR] at h3
    cases restRemoved with
    | some rr =>
      have hgoal : removeNode (TreeNode.mk i l (some cs) h1 :: rest) nodeId
          = (TreeNode.mk i l (some childNext) h1 :: restNext, some rr) := by
        simp [removeNode, hne, heqC, heqR]
      rw [hgoal]
      simp [idsL, ids1]
      exact ⟨fun hh => hne hh.symm, h2, h3⟩
    | none =>
      have hgoal : removeNode (TreeNode.mk i l (some cs) h1 :: rest) nodeId
          = (TreeNode.mk i l (some childNext) h1 :: restNext, childRemoved) := by
        simp [removeNode, hne, heqC, heqR]
      rw [hgoal]
      simp [idsL, ids1]
      exact ⟨fun hh => hne hh.symm, h2, h3⟩
  | case5 i l h1 rest nodeId hne restNext restRemoved heqR ih1 =>
    have h3 := ih1
    rw [heqR] at h3
    have hgoal : removeNode (TreeNode.mk i l none h1 :: rest) nodeId
        = (TreeNode.mk i l none h1 :: restNext, restRemoved) := by
      simp [removeNode, hne, heqR]
    rw [hgoal]
    simp [idsL, ids1]
    exact ⟨fun hh => hne hh.symm, h3⟩

theorem countCardIn_append (a b : List Card) (cid : String) :
    countCardIn (a ++ b) cid = countCardIn a cid + countCardIn b cid := by
  simp [countCardIn, List.filter_append]

theorem filterNe_length_add_count (cards : List Card) (cid : String) :
    (cards.filter (fun c => decide (c.id ≠ cid))).length + countCardIn cards cid
      = cards.length := by
  induction cards with
  | nil => simp [countCardIn]
  | cons c rest ih =>
    by_cases hc : c.id = cid <;>
      (simp [countCardIn, List.filter_cons, hc] at ih ⊢; omega)

theorem countCardIn_cons (c : Card) (rest : List Card) (cid : String) :
    countCardIn (c :: rest) cid
      = (if c.id = cid then 1 else 0) + countCardIn rest cid := by
  by_cases hc : c.id = cid
  · simp [countCardIn, List.filter_cons, hc]
    omega
  · simp [countCardIn, List.filter_cons, hc]

theorem countCardIn_filterNe (cards : List Card) (cid : String) :
    countCardIn (cards.filter (fun c => decide (c.id ≠ cid))) cid = 0 := by
  induction cards with
  | nil => simp [countCardIn]
  | cons c rest ih =>
    by_cases hc : c.id = cid <;>
      simp [countCardIn, List.filter_cons, hc] at ih ⊢

theorem filterNe_of_count_zero (cards : List Card) (cid : String)
    (h : countCardIn cards cid = 0) :
    cards.filter (fun c => decide (c.id ≠ cid)) = cards := by
  induction cards with
  | nil => simp
  | cons c rest ih =>
    rw [countCardIn_cons] at h
    by_cases hc : c.id = cid
    · rw [if_pos hc] at h
      omega
    · rw [if_neg hc] at h
      have h2 : countCardIn rest cid = 0 := by omega
      rw [List.filter_cons_of_pos (by simp [hc]), ih h2]

theorem find_of_count_zero (cards : List Card) (cid : String)
    (h : countCardIn cards cid = 0) :
    cards.find? (fun c => decide (c.id = cid)) = none := by
  induction cards with
  | nil => simp
  | cons c rest ih =>
    rw [countCardIn_cons] at h
    by_cases hc : c.id = cid
    · rw [if_pos hc] at h
      omega
    · rw [if_neg hc] at h
      have h2 : countCardIn rest cid = 0 := by omega
      simp [List.find?_cons, hc, ih h2]

theorem find_of_count_one (cards : List Card) (cid : String)
    (h : countCardIn cards cid = 1) :
    ∃ mc, cards.find? (fun c => decide (c.id = cid)) = some mc ∧ mc.id = cid := by
  induction cards with
  | nil => simp [countCardIn] at h
  | cons c rest ih =>
    by_cases hc : c.id = cid
    · exact ⟨c, by simp [List.find?_cons, hc], hc⟩
    · rw [countCardIn_cons, if_neg hc] at h
      obtain ⟨mc, hmc, hid⟩ := ih (by omega)
      exact ⟨mc, by simp [List.find?_cons, hc, hmc], hid⟩

theorem id_mem_ids1 (r : TreeNode) : r.id ∈ ids1 r := by
  cases r with
  | mk i l c h => cases c <;> simp [ids1, TreeNode.id]

theorem mem_setAdd (s : List String) (x : String) : x ∈ setAdd s x := by
  by_cases h : x ∈ s <;> simp [setAdd, h]

theorem not_mem_setDel (s : List String) (x : String) : x ∉ setDel s x := by
  simp [setDel]

theorem targetAfter_core (csf cst : List Card) (cid : String)
    (hle : countCardIn csf cid ≤ 1) :
    (csf.filter (fun c => decide (c.id ≠ cid))).length + (targetAfter csf cst cid).length
        = csf.length + cst.length ∧
    countCardIn (csf.filter (fun c => decide (c.id ≠ cid))) cid
        + countCardIn (targetAfter csf cst cid) cid
        = countCardIn csf cid + countCardIn cst cid := by
  by_cases h1 : countCardIn csf cid = 1
  · obtain ⟨mc, hmc, hid⟩ := find_of_count_one csf cid h1
    have hflt := filterNe_length_add_count csf cid
    have hfc := countCardIn_filterNe csf cid
    constructor
    · rw [targetAfter, hmc]
      simp only [List.length_append, List.length_cons, List.length_nil]
      omega
    · rw [targetAfter, hmc]
      simp only [countCardIn_append, hfc, h1]
      have : countCardIn [mc] cid = 1 := by simp [countCardIn, hid]
      omega
  · have h0 : countCardIn csf cid = 0 := by omega
    have hmc := find_of_count_zero csf cid h0
    have hft := filterNe_of_count_zero csf cid h0
    rw [targetAfter, hmc, hft]
    simp [h0, countCardIn_filterNe]

theorem removeNode_removed_getLast (nodes : List TreeNode) (x : String) :
    (removeNode nodes x).2 = (matchesOf nodes x).getLast? := by
  induction nodes, x using removeNode.induct with
  | case1 x => simp [removeNode, matchesOf]
  | case2 l c h rest nodeId next r heq ih1 =>
    rw [heq] at ih1
    simp only at ih1
    have hgoal : removeNode (TreeNode.mk nodeId l c h :: rest) nodeId
        = (next, some r) := by
      cases c <;> simp [removeNode, heq]
    have hm : matchesOf (TreeNode.mk nodeId l c h :: rest) nodeId
        = TreeNode.mk nodeId l c h :: matchesOf rest nodeId := by
      cases c <;> simp [matchesOf]
    rw [hgoal, hm, List.getLast?_cons, ← ih1]
    simp
  | case3 l c h rest nodeId next heq ih1 =>
    rw [heq] at ih1
    simp only at ih1
    have hgoal : removeNode (TreeNode.mk nodeId l c h :: rest) nodeId
        = (next, some (TreeNode.mk nodeId l c h)) := by
      cases c <;> simp [removeNode, heq]
    have hm : matchesOf (TreeNode.mk nodeId l c h :: rest) nodeId
        = TreeNode.mk nodeId l c h :: matchesOf rest nodeId := by
      cases c <;> simp [matchesOf]
    rw [hgoal, hm, List.getLast?_cons, ← ih1]
    simp
  | case4 i l h1 rest nodeId hne cs childNext childRemoved restNext restRemoved heqR heqC ih2 ih1 =>
    rw [heqC] at ih2
    rw [heqR] at ih1
    simp only at ih1 ih2
    have hm : matchesOf (TreeNode.mk i l (some cs) h1 :: rest) nodeId
        = matchesOf cs nodeId ++ matchesOf rest nodeId := by
      simp [matchesOf, hne]
    rw [hm, List.getLast?_append, ← ih1, ← ih2]
    cases restRemoved with
    | some rr =>
      have hgoal : removeNode (TreeNode.mk i l (some cs) h1 :: rest) nodeId
          = (TreeNode.mk i l (some childNext) h1 :: restNext, some rr) := by
        simp [removeNode, hne, heqC, heqR]
      rw [hgoal]
      simp
    | none =>
      have hgoal : removeNode (TreeNode.mk i l (some cs) h1 :: rest) nodeId
          = (TreeNode.mk i l (some childNext) h1 :: restNext, childRemoved) := by
        simp [removeNode, hne, heqC, heqR]
      rw [hgoal]
      simp
  | case5 i l h1 rest nodeId hne restNext restRemoved heqR ih1 =>
    rw [heqR] at ih1
    simp only at ih1
    have hm : matchesOf (TreeNode.mk i l none h1 :: rest) nodeId
        = matchesOf rest nodeId := by
      simp [matchesOf, hne]
    have hgoal : removeNode (TreeNode.mk i l none h1 :: rest) nodeId
        = (TreeNode.mk i l none h1 :: restNext, restRemoved) := by
      simp [removeNode, hne, heqR]
    rw [hgoal, hm, ← ih1]

theorem updateNodeLabel_matches (nodes : List TreeNode) (x lab : String) :
    matchesOf (updateNodeLabel nodes x lab) x
      = (matchesOf nodes x).map
          (fun n => TreeNode.mk n.id lab n.children n.hasChildren) := by
  induction nodes, x, lab using updateNodeLabel.induct with
  | case1 x lab => simp [updateNodeLabel, matchesOf]
  | case2 l c h rest x lab ih1 =>
    cases c <;>
      simp [updateNodeLabel, matchesOf, ih1, TreeNode.id, TreeNode.children,
        TreeNode.hasChildren]
  | case3 i l h1 rest x lab hne cs ih2 ih1 =>
    simp [updateNodeLabel, matchesOf, hne, ih1, ih2, List.map_append]
  | case4 i l h1 rest x lab hne ih1 =>
    simp [updateNodeLabel, matchesOf, hne, ih1]

theorem updateNodeLabel_ids (nodes : List TreeNode) (x lab : String) :
    idsL (updateNodeLabel nodes x lab) = idsL nodes := by
  induction nodes, x, lab using updateNodeLabel.induct with
  | case1 x lab => simp [updateNodeLabel]
  | case2 l c h rest x lab ih1 =>
    cases c <;> simp [updateNodeLabel, idsL, ids1, ih1]
  | case3 i l h1 rest x lab hne cs ih2 ih1 =>
    simp [updateNodeLabel, idsL, ids1, hne, ih1, ih2]
  | case4 i l h1 rest x lab hne ih1 =>
    simp [updateNodeLabel, idsL, ids1, hne, ih1]

theorem attachChildren_matches (nodes : List TreeNode) (x : String)
    (cs2 : List TreeNode) :
    matchesOf (attachChildren nodes x cs2) x
      = (matchesOf nodes x).map
          (fun n => TreeNode.mk n.id n.label (some cs2) n.hasChildren) := by
  induction nodes, x, cs2 using attachChildren.induct with
  | case1 x cs2 => simp [attachChildren, matchesOf]
  | case2 l c h rest x cs2 ih1 =>
    cases c <;>
      simp [attachChildren, matchesOf, ih1, TreeNode.id, TreeNode.label,
        TreeNode.hasChildren]
  | case3 i l h1 rest x cs2 hne cs ih2 ih1 =>
    simp [attachChildren, matchesOf, hne, ih1, ih2, List.map_append]
  | case4 i l h1 rest x cs2 hne ih1 =>
    simp [attachChildren, matchesOf, hne, ih1]

theorem insertAsChildAux_matches (nodes : List TreeNode) (x : String)
    (child : TreeNode) :
    matchesOf (insertAsChildAux nodes x child) x
      = (matchesOf nodes x).map
          (fun n => TreeNode.mk n.id n.label
            (some ((n.children.getD []) ++ [child])) n.hasChildren) := by
  induction nodes, x, child using insertAsChildAux.induct with
  | case1 x child => simp [insertAsChildAux, matchesOf]
  | case2 l c h rest pid child ih1 =>
    cases c <;>
      simp [insertAsChildAux, matchesOf, ih1, TreeNode.id, TreeNode.label,
        TreeNode.children, TreeNode.hasChildren]
  | case3 i l h1 rest pid child hne cs ih2 ih1 =>
    simp [insertAsChildAux, matchesOf, hne, ih1, ih2, List.map_append]
  | case4 i l h1 rest pid child hne ih1 =>
    simp [insertAsChildAux, matchesOf, hne, ih1]

/-- Claim C7: for a forest `F` and an id `X` not present in `F`, relabelling,
attaching children, and inserting a child addressed at `X` all return a forest
structurally equal to `F`. -/
theorem claim_C7 (F : List TreeNode) (X : String) (hX : X ∉ idsL F)
    (label : String) (cs : List TreeNode) (n : TreeNode) :
    updateNodeLabel F X label = F ∧ attachChildren F X cs = F ∧
      insertAsChild F (some X) n = F :=
  ⟨updateNodeLabel_not_mem F X label hX, attachChildren_not_mem F X cs hX,
    insertAsChildAux_not_mem F X n hX⟩

/-- Witness for C7 at a concrete one-node forest and the absent id `z`. -/
theorem claim_C7_witness :
    updateNodeLabel [TreeNode.mk "1" "Root" none none] "z" "L"
        = [TreeNode.mk "1" "Root" none none] ∧
    attachChildren [TreeNode.mk "1" "Root" none none] "z" []
        = [TreeNode.mk "1" "Root" none none] ∧
    insertAsChild [TreeNode.mk "1" "Root" none none] (some "z")
        (TreeNode.mk "n" "N" none none) = [TreeNode.mk "1" "Root" none none] :=
  claim_C7 [TreeNode.mk "1" "Root" none none] "z" (by simp [idsL, ids1]) "L" []
    (TreeNode.mk "n" "N" none none)

/-- Claim C2 counterexample: in the two-root forest whose roots both carry id
`x`, `removeNode` excises BOTH matches and returns the SECOND (last) one, not
the first pre-order match only — the claim would demand the result
`([second root], some (first root))`. -/
theorem claim_C2_counterexample :
    removeNode [TreeNode.mk "x" "a" none none, TreeNode.mk "x" "b" none none] "x"
        = ([], some (TreeNode.mk "x" "b" none none)) ∧
    (([], some (TreeNode.mk "x" "b" none none)) :
        List TreeNode × Option TreeNode)
      ≠ ([TreeNode.mk "x" "b" none none], some (TreeNode.mk "x" "a" none none)) := by
  constructor
  · simp [removeNode]
  · intro hcontra
    injection hcontra with h1 h2
    simp at h1

/-- Claim C2 (amended): for every forest, every id-searching operation acts
on EVERY matching node that is not nested inside another match, not only on
the first pre-order match — stated over `matchesOf`, the document-ordered
list of maximal matches.  `removeNode` leaves no node with the searched id
anywhere in its result and returns the LAST maximal match in document order;
`updateNodeLabel` relabels every maximal match (and changes no id),
`attachChildren` replaces every maximal match's children, and `insertAsChild`
appends the new child to every maximal match's children. -/
theorem claim_C2_amended :
    (∀ (nodes : List TreeNode) (x : String), x ∉ idsL (removeNode nodes x).1) ∧
    (∀ (nodes : List TreeNode) (x : String),
      (removeNode nodes x).2 = (matchesOf nodes x).getLast?) ∧
    (∀ (nodes : List TreeNode) (x lab : String),
      matchesOf (updateNodeLabel nodes x lab) x
        = (matchesOf nodes x).map
            (fun n => TreeNode.mk n.id lab n.children n.hasChildren)) ∧
    (∀ (nodes : List TreeNode) (x lab : String),
      idsL (updateNodeLabel nodes x lab) = idsL nodes) ∧
    (∀ (nodes : List TreeNode) (x : String) (cs : List TreeNode),
      matchesOf (attachChildren nodes x cs) x
        = (matchesOf nodes x).map
            (fun n => TreeNode.mk n.id n.label (some cs) n.hasChildren)) ∧
    (∀ (nodes : List TreeNode) (x : String) (child : TreeNode),
      matchesOf (insertAsChild nodes (some x) child) x
        = (matchesOf nodes x).map
            (fun n => TreeNode.mk n.id n.label
              (some ((n.children.getD []) ++ [child])) n.hasChildren)) :=
  ⟨removeNode_removes_all, removeNode_removed_getLast, updateNodeLabel_matches,
   updateNodeLabel_ids, attachChildren_matches,
   fun nodes x child => insertAsChildAux_matches nodes x child⟩

/-- Claim C1 counterexample: for the forest with two roots of id `x` and the
absent parent id `p`, removing `x` and reinserting the removed subtree under
`p` yields the empty forest, whose id multiset is not that of the original. -/
theorem claim_C1_counterexample :
    ¬ List.Perm
      (idsL (insertAsChild
        (removeNode [TreeNode.mk "x" "a" none none, TreeNode.mk "x" "b" none none]
          "x").1
        (some "p")
        (((removeNode [TreeNode.mk "x" "a" none none, TreeNode.mk "x" "b" none none]
          "x").2).getD (TreeNode.mk "" "" none none))))
      (idsL [TreeNode.mk "x" "a" none none, TreeNode.mk "x" "b" none none]) := by
  have h1 : removeNode [TreeNode.mk "x" "a" none none, TreeNode.mk "x" "b" none none]
      "x" = ([], some (TreeNode.mk "x" "b" none none)) := by
    simp [removeNode]
  rw [h1]
  simp [insertAsChild, insertAsChildAux, idsL, ids1]

/-- Claim C1 (amended): on a duplicate-free forest, for an id `X` present in
it and a reinsertion parent that is `none` (root) or an id present in the
forest left after removal, the remove-then-insert round trip preserves the
multiset of ids exactly, and the removal introduces no duplicate ids. -/
theorem claim_C1_amended (F : List TreeNode) (X : String) (P : Option String)
    (hnd : (idsL F).Nodup) (hX : X ∈ idsL F)
    (hP : P = none ∨ ∃ p, P = some p ∧ p ∈ idsL (removeNode F X).1) :
    (idsL (removeNode F X).1).Nodup ∧
    ∃ r, (removeNode F X).2 = some r ∧
      List.Perm (idsL (insertAsChild (removeNode F X).1 P r)) (idsL F) := by
  obtain ⟨next, r, heq⟩ := removeNode_mem_some F X hX
  have hperm := removeNode_perm F X hnd hX
  simp only [heq, idsOpt] at hperm
  have hndnr : (idsL next ++ ids1 r).Nodup := hperm.symm.nodup hnd
  have hndn : (idsL next).Nodup := (List.nodup_append.mp hndnr).1
  simp only [heq]
  refine ⟨hndn, r, rfl, ?_⟩
  rcases hP with hP | ⟨p, hPp, hpmem⟩
  · subst hP
    simp only [insertAsChild, idsL_append]
    have : idsL [r] = ids1 r ++ [] := by simp [idsL]
    rw [this]
    simpa using hperm
  · subst hPp
    simp only [heq] at hpmem
    simp only [insertAsChild]
    have hcnt : (idsL next).count p = 1 :=
      List.count_eq_one_of_mem hndn hpmem
    exact (insertAsChildAux_perm next p r hcnt).trans hperm

/-- Witness for the amended C1 at a concrete two-node forest, removing the
child `2` and reinserting it under the surviving root `1`. -/
theorem claim_C1_amended_witness :
    (idsL (removeNode [TreeNode.mk "1" "R"
        (some [TreeNode.mk "2" "C" none none]) none] "2").1).Nodup ∧
    ∃ r, (removeNode [TreeNode.mk "1" "R"
        (some [TreeNode.mk "2" "C" none none]) none] "2").2 = some r ∧
      List.Perm
        (idsL (insertAsChild (removeNode [TreeNode.mk "1" "R"
          (some [TreeNode.mk "2" "C" none none]) none] "2").1 (some "1") r))
        (idsL [TreeNode.mk "1" "R" (some [TreeNode.mk "2" "C" none none]) none]) :=
  claim_C1_amended [TreeNode.mk "1" "R" (some [TreeNode.mk "2" "C" none none]) none]
    "2" (some "1") (by simp [idsL, ids1]) (by simp [idsL, ids1])
    (Or.inr ⟨"1", rfl, by simp [removeNode, idsL, ids1]⟩)

/-- Claim C4: on a duplicate-free forest, removing a present id `X` excises
exactly the subtree rooted at the (unique) node with id `X`: no id of that
subtree survives anywhere in the result, and every id outside that subtree
survives. -/
theorem claim_C4 (F : List TreeNode) (X : String)
    (hnd : (idsL F).Nodup) (hX : X ∈ idsL F) :
    ∃ next r, removeNode F X = (next, some r) ∧
      (∀ y ∈ ids1 r, y ∉ idsL next) ∧
      (∀ y ∈ idsL F, y ∉ ids1 r → y ∈ idsL next) := by
  obtain ⟨next, r, heq⟩ := removeNode_mem_some F X hX
  have hperm := removeNode_perm F X hnd hX
  simp only [heq, idsOpt] at hperm
  have hndnr : (idsL next ++ ids1 r).Nodup := hperm.symm.nodup hnd
  have hdisj := List.disjoint_of_nodup_append hndnr
  refine ⟨next, r, heq, ?_, ?_⟩
  · intro y hy hy2
    exact hdisj hy2 hy
  · intro y hyF hyr
    have hmem : y ∈ idsL next ++ ids1 r := (hperm.mem_iff).mpr hyF
    rcases List.mem_append.mp hmem with hmem | hmem
    · exact hmem
    · exact absurd hmem hyr

/-- Witness for C4: deleting the subtree rooted at `1` from a two-root
forest. -/
theorem claim_C4_witness :
    ∃ next r, removeNode [TreeNode.mk "1" "R"
        (some [TreeNode.mk "2" "C" none none]) none,
        TreeNode.mk "3" "S" none none] "1" = (next, some r) ∧
      (∀ y ∈ ids1 r, y ∉ idsL next) ∧
      (∀ y ∈ idsL [TreeNode.mk "1" "R" (some [TreeNode.mk "2" "C" none none]) none,
        TreeNode.mk "3" "S" none none], y ∉ ids1 r → y ∈ idsL next) :=
  claim_C4 [TreeNode.mk "1" "R" (some [TreeNode.mk "2" "C" none none]) none,
    TreeNode.mk "3" "S" none none] "1" (by simp [idsL, ids1]) (by simp [idsL, ids1])

/-- Claim C3: a drop is a no-op when dragged id equals target id or when
nothing was removed; otherwise the committed tree is
`insertAsChild((removeNode tree A).next, B, removed)`, and for a duplicate-free
tree with target `B` present and outside the dragged subtree, the dragged id
`A` occurs exactly once afterwards, as a child of `B`. -/
theorem claim_C3 (tree : List TreeNode) (A B : String) (r : TreeNode)
    (hnd : (idsL tree).Nodup)
    (hrem : (removeNode tree A).2 = some r)
    (hB : B ∈ idsL tree) (hBr : B ∉ ids1 r) :
    moveNode tree A (some B) = insertAsChild (removeNode tree A).1 (some B) r ∧
    (idsL (moveNode tree A (some B))).count A = 1 ∧
    hasChildWithId (moveNode tree A (some B)) B A = true ∧
    (∀ (t : List TreeNode) (d : String), moveNode t d (some d) = t) ∧
    (∀ (t : List TreeNode) (d : String) (tg : Option String),
      tg ≠ some d → (removeNode t d).2 = none → moveNode t d tg = t) := by
  have hA : A ∈ idsL tree := by
    by_contra hq
    have h0 := removeNode_not_mem tree A hq
    rw [h0] at hrem
    simp at hrem
  obtain ⟨next, r2, hpair⟩ := removeNode_mem_some tree A hA
  have hr2 : r2 = r := by
    rw [hpair] at hrem
    simpa using hrem
  subst hr2
  have hid : r2.id = A := removeNode_removed_id tree A next r2 hpair
  have hperm := removeNode_perm tree A hnd hA
  simp only [hpair, idsOpt] at hperm
  have hndnr : (idsL next ++ ids1 r2).Nodup := hperm.symm.nodup hnd
  have hndn : (idsL next).Nodup := (List.nodup_append.mp hndnr).1
  have hndr : (ids1 r2).Nodup := (List.nodup_append.mp hndnr).2.1
  have hdisj := List.disjoint_of_nodup_append hndnr
  have hAr : A ∈ ids1 r2 := hid ▸ id_mem_ids1 r2
  have hAnext : A ∉ idsL next := fun hq => hdisj hq hAr
  have hBnext : B ∈ idsL next := by
    have hmem : B ∈ idsL next ++ ids1 r2 := (hperm.mem_iff).mpr hB
    rcases List.mem_append.mp hmem with hm | hm
    · exact hm
    · exact absurd hm hBr
  have hBA : B ≠ A := by
    intro hq
    exact hBr (hq ▸ hAr)
  have hmove : moveNode tree A (some B) = insertAsChildAux next B r2 := by
    simp [moveNode, handleDrop, hpair, hBA, insertAsChild]
  have hcntB : (idsL next).count B = 1 := List.count_eq_one_of_mem hndn hBnext
  have hinsperm := insertAsChildAux_perm next B r2 hcntB
  refine ⟨?_, ?_, ?_, ?_, ?_⟩
  · rw [hmove, hpair]
    rfl
  · rw [hmove]
    rw [hinsperm.count_eq A]
    rw [List.count_append]
    have h0 : (idsL next).count A = 0 := List.count_eq_zero.mpr hAnext
    have h1 : (ids1 r2).count A = 1 := List.count_eq_one_of_mem hndr hAr
    omega
  · rw [hmove]
    have := insertAsChildAux_hasChild next B r2 hBnext
    rwa [hid] at this
  · intro t d
    simp [moveNode, handleDrop]
  · intro t d tg h1 h2
    simp [moveNode, handleDrop, h1, h2]

/-- Witness for C3: dragging root `a` (with child `c`) onto sibling root
`b`. -/
theorem claim_C3_witness :
    moveNode [TreeNode.mk "a" "A" (some [TreeNode.mk "c" "C" none none]) none,
        TreeNode.mk "b" "B" none none] "a" (some "b")
      = insertAsChild (removeNode [TreeNode.mk "a" "A"
          (some [TreeNode.mk "c" "C" none none]) none,
          TreeNode.mk "b" "B" none none] "a").1 (some "b")
          (TreeNode.mk "a" "A" (some [TreeNode.mk "c" "C" none none]) none) ∧
    (idsL (moveNode [TreeNode.mk "a" "A" (some [TreeNode.mk "c" "C" none none]) none,
        TreeNode.mk "b" "B" none none] "a" (some "b"))).count "a" = 1 ∧
    hasChildWithId (moveNode [TreeNode.mk "a" "A"
        (some [TreeNode.mk "c" "C" none none]) none,
        TreeNode.mk "b" "B" none none] "a" (some "b")) "b" "a" = true ∧
    (∀ (t : List TreeNode) (d : String), moveNode t d (some d) = t) ∧
    (∀ (t : List TreeNode) (d : String) (tg : Option String),
      tg ≠ some d → (removeNode t d).2 = none → moveNode t d tg = t) :=
  claim_C3 [TreeNode.mk "a" "A" (some [TreeNode.mk "c" "C" none none]) none,
      TreeNode.mk "b" "B" none none] "a" "b"
    (TreeNode.mk "a" "A" (some [TreeNode.mk "c" "C" none none]) none)
    (by simp [idsL, ids1]) (by simp [removeNode]) (by simp [idsL, ids1])
    (by simp [ids1, idsL])

/-- Claim C10: dropping a node onto its own strict descendant commits exactly
`removeNode(tree, A).next`: the dragged subtree disappears wholly, because the
reinsertion target no longer exists and `insertAsChild` is a silent no-op. -/
theorem claim_C10 (tree : List TreeNode) (A B : String) (r : TreeNode)
    (hnd : (idsL tree).Nodup)
    (hrem : (removeNode tree A).2 = some r)
    (hBr : B ∈ ids1 r) (hBA : B ≠ A) :
    moveNode tree A (some B) = (removeNode tree A).1 ∧
    ∀ y ∈ ids1 r, y ∉ idsL (moveNode tree A (some B)) := by
  have hA : A ∈ idsL tree := by
    by_contra hq
    have h0 := removeNode_not_mem tree A hq
    rw [h0] at hrem
    simp at hrem
  obtain ⟨next, r2, hpair⟩ := removeNode_mem_some tree A hA
  have hr2 : r2 = r := by
    rw [hpair] at hrem
    simpa using hrem
  subst hr2
  have hperm := removeNode_perm tree A hnd hA
  simp only [hpair, idsOpt] at hperm
  have hndnr : (idsL next ++ ids1 r2).Nodup := hperm.symm.nodup hnd
  have hdisj := List.disjoint_of_nodup_append hndnr
  have hBnext : B ∉ idsL next := fun hq => hdisj hq hBr
  have hins : insertAsChildAux next B r2 = next :=
    insertAsChildAux_not_mem next B r2 hBnext
  have hmove : moveNode tree A (some B) = next := by
    simp [moveNode, handleDrop, hpair, hBA, insertAsChild, hins]
  constructor
  · rw [hmove, hpair]
  · intro y hy
    rw [hmove]
    exact fun hq => hdisj hq hy

/-- Witness for C10: dragging root `a` onto its own child `b`. -/
theorem claim_C10_witness :
    moveNode [TreeNode.mk "a" "A" (some [TreeNode.mk "b" "B" none none]) none]
        "a" (some "b")
      = (removeNode [TreeNode.mk "a" "A"
          (some [TreeNode.mk "b" "B" none none]) none] "a").1 ∧
    ∀ y ∈ ids1 (TreeNode.mk "a" "A" (some [TreeNode.mk "b" "B" none none]) none),
      y ∉ idsL (moveNode [TreeNode.mk "a" "A"
        (some [TreeNode.mk "b" "B" none none]) none] "a" (some "b")) :=
  claim_C10 [TreeNode.mk "a" "A" (some [TreeNode.mk "b" "B" none none]) none]
    "a" "b" (TreeNode.mk "a" "A" (some [TreeNode.mk "b" "B" none none]) none)
    (by simp [idsL, ids1]) (by simp [removeNode]) (by simp [ids1, idsL])
    (by decide)

theorem append_dash_one (a : String) : a ++ "-" ++ toString 1 = a ++ "-1" := by
  rw [String.append_assoc]
  rfl

theorem append_dash_two (a : String) : a ++ "-" ++ toString 2 = a ++ "-2" := by
  rw [String.append_assoc]
  rfl

/-- Claim C5: expanding a placeholder (`hasChildren = some true`, no children,
not already loading, currently collapsed) marks it expanded, puts the id into
the loading set, and appends exactly one pending delivery with the fixed 500 ms
delay; the generated payload is exactly two children with ids `parentId-1` and
`parentId-2`, labels from the letter table at index `(position + depth) mod 5`
and `hasChildren` iff `depth < 3`; firing a delivery removes the id from the
loading set and attaches the children; collapsing and re-expanding before the
delivery fires changes only the expanded set — no second load is scheduled. -/
theorem claim_C5 (s : TreeState) (node : TreeNode)
    (hHas : node.hasChildren = some true) (hNoCh : node.children = none)
    (hNotLoad : node.id ∉ s.loading) (hNotExp : node.id ∉ s.expanded) :
    toggleExpand s node
      = { tree := s.tree
          expanded := setAdd s.expanded node.id
          loading := setAdd s.loading node.id
          pending := s.pending ++
            [(node.id, 500, generateChildren node.id (nodeDepth node.id))] } ∧
    node.id ∈ (toggleExpand s node).loading ∧
    generateChildren node.id (nodeDepth node.id)
      = [TreeNode.mk (node.id ++ "-1")
           (letters.getD (nodeDepth node.id % letters.length) "") none
           (some (decide (nodeDepth node.id < 3))),
         TreeNode.mk (node.id ++ "-2")
           (letters.getD ((1 + nodeDepth node.id) % letters.length) "") none
           (some (decide (nodeDepth node.id < 3)))] ∧
    (∀ (t : TreeState) (rest : List (String × Nat × List TreeNode))
        (gen : List TreeNode),
      t.pending = (node.id, 500, gen) :: rest →
      deliverFirst t
        = ({ tree := attachChildren t.tree node.id gen, expanded := t.expanded,
             loading := setDel t.loading node.id, pending := rest },
           [attachChildren t.tree node.id gen])) ∧
    toggleExpand (toggleExpand (toggleExpand s node) node) node
      = { toggleExpand s node with
          expanded := setAdd (setDel (setAdd s.expanded node.id) node.id)
            node.id } := by
  have h1 : toggleExpand s node
      = { tree := s.tree
          expanded := setAdd s.expanded node.id
          loading := setAdd s.loading node.id
          pending := s.pending ++
            [(node.id, 500, generateChildren node.id (nodeDepth node.id))] } := by
    simp [toggleExpand, hNotExp, hNoCh, hHas, hNotLoad]
  refine ⟨h1, ?_, ?_, ?_, ?_⟩
  · rw [h1]
    exact mem_setAdd s.loading node.id
  · simp [generateChildren, List.range_succ, letters]
    constructor
    · rw [append_dash_one]
    · rw [append_dash_two]
  · intro t rest gen hpend
    simp [deliverFirst, hpend]
  · rw [h1]
    have h2 : toggleExpand
        ({ tree := s.tree
           expanded := setAdd s.expanded node.id
           loading := setAdd s.loading node.id
           pending := s.pending ++
             [(node.id, 500, generateChildren node.id (nodeDepth node.id))] }
          : TreeState) node
        = { tree := s.tree
            expanded := setDel (setAdd s.expanded node.id) node.id
            loading := setAdd s.loading node.id
            pending := s.pending ++
              [(node.id, 500, generateChildren node.id (nodeDepth node.id))] } := by
      simp [toggleExpand, mem_setAdd]
    rw [h2]
    simp [toggleExpand, not_mem_setDel, mem_setAdd]

/-- Witness for C5 at the one-placeholder initial state. -/
theorem claim_C5_witness :
    toggleExpand ⟨[TreeNode.mk "1" "Root" none (some true)], [], [], []⟩
        (TreeNode.mk "1" "Root" none (some true))
      = { tree := [TreeNode.mk "1" "Root" none (some true)]
          expanded := setAdd [] "1"
          loading := setAdd [] "1"
          pending := [] ++ [("1", 500, generateChildren "1" (nodeDepth "1"))] } ∧
    "1" ∈ (toggleExpand ⟨[TreeNode.mk "1" "Root" none (some true)], [], [], []⟩
        (TreeNode.mk "1" "Root" none (some true))).loading ∧
    generateChildren "1" (nodeDepth "1")
      = [TreeNode.mk ("1" ++ "-1") (letters.getD (nodeDepth "1" % letters.length) "")
           none (some (decide (nodeDepth "1" < 3))),
         TreeNode.mk ("1" ++ "-2")
           (letters.getD ((1 + nodeDepth "1") % letters.length) "") none
           (some (decide (nodeDepth "1" < 3)))] ∧
    (∀ (t : TreeState) (rest : List (String × Nat × List TreeNode))
        (gen : List TreeNode),
      t.pending = ("1", 500, gen) :: rest →
      deliverFirst t
        = ({ tree := attachChildren t.tree "1" gen, expanded := t.expanded,
             loading := setDel t.loading "1", pending := rest },
           [attachChildren t.tree "1" gen])) ∧
    toggleExpand (toggleExpand (toggleExpand
        ⟨[TreeNode.mk "1" "Root" none (some true)], [], [], []⟩
        (TreeNode.mk "1" "Root" none (some true)))
        (TreeNode.mk "1" "Root" none (some true)))
        (TreeNode.mk "1" "Root" none (some true))
      = { toggleExpand ⟨[TreeNode.mk "1" "Root" none (some true)], [], [], []⟩
            (TreeNode.mk "1" "Root" none (some true)) with
          expanded := setAdd (setDel (setAdd [] "1") "1") "1" } :=
  claim_C5 ⟨[TreeNode.mk "1" "Root" none (some true)], [], [], []⟩
    (TreeNode.mk "1" "Root" none (some true)) rfl rfl (by simp) (by simp)

/-- Claim C8 counterexample: a confirmed delete of the absent id `zzz` leaves
the tree structurally unchanged (a no-op) yet still invokes the change
listener once. -/
theorem claim_C8_counterexample :
    (handleDelete [TreeNode.mk "1" "Root" none none] "zzz" true).1
        = [TreeNode.mk "1" "Root" none none] ∧
    (handleDelete [TreeNode.mk "1" "Root" none none] "zzz" true).2 ≠ [] := by
  constructor
  · simp [handleDelete, removeNode]
  · simp [handleDelete]

/-- Claim C8 (amended): `onChange` fires exactly once per committed `setState`
and never on an aborted branch (declined confirm, cancelled or empty prompt,
self-drop, failed remove, empty drag payload, same-column drop); but a
confirmed delete of a non-existent id and a lazy-load delivery whose target
node was deleted both COMMIT a structurally unchanged state and still emit
exactly once. -/
theorem claim_C8_amended :
    (∀ (tree : List TreeNode) (nodeId : String),
      handleDelete tree nodeId false = (tree, [])) ∧
    (∀ (tree : List TreeNode) (nodeId : String),
      (handleDelete tree nodeId true).2 = [(handleDelete tree nodeId true).1]) ∧
    (∀ (tree : List TreeNode) (pid : Option String) (now : Nat),
      handleAddChild tree pid none now = (tree, []) ∧
      handleAddChild tree pid (some "") now = (tree, [])) ∧
    (∀ (tree : List TreeNode) (pid : Option String) (lab : String) (now : Nat),
      lab ≠ "" →
      (handleAddChild tree pid (some lab) now).2
        = [(handleAddChild tree pid (some lab) now).1]) ∧
    (∀ (tree : List TreeNode) (d : String), handleDrop tree d (some d) = (tree, [])) ∧
    (∀ (tree : List TreeNode) (d : String) (tg : Option String),
      tg ≠ some d → (removeNode tree d).2 = none → handleDrop tree d tg = (tree, [])) ∧
    (∀ (tree : List TreeNode) (d : String) (tg : Option String) (r : TreeNode),
      tg ≠ some d → (removeNode tree d).2 = some r →
      (handleDrop tree d tg).2 = [(handleDrop tree d tg).1]) ∧
    (∀ (tree : List TreeNode) (nodeId label : String),
      (handleLabelChange tree nodeId label).2
        = [(handleLabelChange tree nodeId label).1]) ∧
    (∀ (t : TreeState) (nid : String) (delay : Nat) (gen : List TreeNode)
        (rest : List (String × Nat × List TreeNode)),
      t.pending = (nid, delay, gen) :: rest →
      (deliverFirst t).2 = [attachChildren t.tree nid gen]) ∧
    (∀ (st : List Column) (col : ColumnId) (now : Nat),
      handleAddCard st col none now = (st, []) ∧
      handleAddCard st col (some "") now = (st, [])) ∧
    (∀ (st : List Column) (col : ColumnId) (tit : String) (now : Nat),
      tit ≠ "" →
      (handleAddCard st col (some tit) now).2
        = [(handleAddCard st col (some tit) now).1]) ∧
    (∀ (st : List Column) (fr tg : ColumnId),
      handleDropCard st "" fr tg = (st, [])) ∧
    (∀ (st : List Column) (cid : String) (fr : ColumnId),
      handleDropCard st cid fr fr = (st, [])) ∧
    (∀ (st : List Column) (cid : String) (fr tg : ColumnId),
      cid ≠ "" → fr ≠ tg →
      (handleDropCard st cid fr tg).2 = [(handleDropCard st cid fr tg).1]) ∧
    (∀ (st : List Column) (col : ColumnId) (cid : String),
      (handleDeleteCard st col cid).2 = [(handleDeleteCard st col cid).1]) ∧
    (∀ (tree : List TreeNode) (nodeId : String), nodeId ∉ idsL tree →
      handleDelete tree nodeId true = (tree, [tree])) ∧
    (∀ (t : TreeState) (nid : String) (delay : Nat) (gen : List TreeNode)
        (rest : List (String × Nat × List TreeNode)),
      t.pending = (nid, delay, gen) :: rest → nid ∉ idsL t.tree →
      deliverFirst t
        = ({ tree := t.tree, expanded := t.expanded,
             loading := setDel t.loading nid, pending := rest }, [t.tree])) := by
  refine ⟨?_, ?_, ?_, ?_, ?_, ?_, ?_, ?_, ?_, ?_, ?_, ?_, ?_, ?_, ?_, ?_, ?_⟩
  · intro tree nodeId
    simp [handleDelete]
  · intro tree nodeId
    simp [handleDelete]
  · intro tree pid now
    exact ⟨by simp [handleAddChild], by simp [handleAddChild]⟩
  · intro tree pid lab now hlab
    simp [handleAddChild, hlab]
  · intro tree d
    simp [handleDrop]
  · intro tree d tg h1 h2
    simp [handleDrop, h1, h2]
  · intro tree d tg r h1 h2
    simp [handleDrop, h1, h2]
  · intro tree nodeId label
    simp [handleLabelChange]
  · intro t nid delay gen rest hpend
    simp [deliverFirst, hpend]
  · intro st col now
    exact ⟨by simp [handleAddCard], by simp [handleAddCard]⟩
  · intro st col tit now htit
    simp [handleAddCard, htit]
  · intro st fr tg
    simp [handleDropCard]
  · intro st cid fr
    simp [handleDropCard]
  · intro st cid fr tg h1 h2
    simp [handleDropCard, h1, h2]
  · intro st col cid
    simp [handleDeleteCard]
  · intro tree nodeId hnm
    have h0 := removeNode_not_mem tree nodeId hnm
    simp [handleDelete, h0]
  · intro t nid delay gen rest hpend hnm
    have h0 := attachChildren_not_mem t.tree nid gen hnm
    simp [deliverFirst, hpend, h0]

/-- Witness for the amended C8: a committed add emits once, and an aborted
self-drop emits nothing. -/
theorem claim_C8_amended_witness :
    (handleAddChild [] none (some "A") 7).2 = [(handleAddChild [] none (some "A") 7).1] ∧
    handleDrop [] "a" (some "a") = ([], []) :=
  ⟨claim_C8_amended.2.2.2.1 [] none "A" 7 (by decide),
   claim_C8_amended.2.2.2.2.1 [] "a"⟩

/-- Claim C9 counterexample: the whitespace-only label `" "` (empty after
trimming) is NOT rejected: the add operation commits an insertion and emits a
change — the `!label` guard checks only for `null`/empty, it does not trim. -/
theorem claim_C9_counterexample :
    (" ").toList.all Char.isWhitespace = true ∧ (" ") ≠ "" ∧
    handleAddChild [TreeNode.mk "1" "Root" none none] none (some " ") 5
      = ([TreeNode.mk "1" "Root" none none,
          TreeNode.mk ("root" ++ "-" ++ toString 5) " " none (some false)],
         [[TreeNode.mk "1" "Root" none none,
           TreeNode.mk ("root" ++ "-" ++ toString 5) " " none (some false)]]) := by
  refine ⟨rfl, by decide, ?_⟩
  simp [handleAddChild, insertAsChild]

/-- Claim C9 (amended): the add operations abort with zero state change and no
emission exactly when the prompt collaborator returns absent or the empty
string; callers do NOT trim, so any other label — including whitespace-only
ones — is accepted verbatim and committed. -/
theorem claim_C9_amended :
    (∀ (tree : List TreeNode) (pid : Option String) (now : Nat),
      handleAddChild tree pid none now = (tree, []) ∧
      handleAddChild tree pid (some "") now = (tree, [])) ∧
    (∀ (tree : List TreeNode) (pid : Option String) (lab : String) (now : Nat),
      lab ≠ "" →
      handleAddChild tree pid (some lab) now
        = (insertAsChild tree pid
             (TreeNode.mk ((pid.getD "root") ++ "-" ++ toString now) lab none
               (some false)),
           [insertAsChild tree pid
             (TreeNode.mk ((pid.getD "root") ++ "-" ++ toString now) lab none
               (some false))])) ∧
    (∀ (st : List Column) (col : ColumnId) (now : Nat),
      handleAddCard st col none now = (st, []) ∧
      handleAddCard st col (some "") now = (st, [])) ∧
    (∀ (st : List Column) (col : ColumnId) (tit : String) (now : Nat),
      tit ≠ "" →
      handleAddCard st col (some tit) now
        = (st.map (fun c => if c.id = col then
             { c with cards := c.cards ++
                 [⟨columnIdStr col ++ "-" ++ toString now, tit⟩] }
             else c),
           [st.map (fun c => if c.id = col then
             { c with cards := c.cards ++
                 [⟨columnIdStr col ++ "-" ++ toString now, tit⟩] }
             else c)])) := by
  refine ⟨?_, ?_, ?_, ?_⟩
  · intro tree pid now
    exact ⟨by simp [handleAddChild], by simp [handleAddChild]⟩
  · intro tree pid lab now hlab
    simp [handleAddChild, hlab]
  · intro st col now
    exact ⟨by simp [handleAddCard], by simp [handleAddCard]⟩
  · intro st col tit now htit
    simp [handleAddCard, htit]

/-- Witness for the amended C9: the whitespace label `" "` is committed with
one emission. -/
theorem claim_C9_amended_witness :
    handleAddChild [] none (some " ") 3
      = (insertAsChild [] none
           (TreeNode.mk (((none : Option String).getD "root") ++ "-" ++ toString 3)
             " " none (some false)),
         [insertAsChild [] none
           (TreeNode.mk (((none : Option String).getD "root") ++ "-" ++ toString 3)
             " " none (some false))]) :=
  claim_C9_amended.2.1 [] none " " 3 (by decide)

theorem moveCard_board3_ti (t1 t2 t3 : String) (cs1 cs2 cs3 : List Card)
    (cardId : String) (hcid : cardId ≠ "") :
    moveCard (board3 t1 t2 t3 cs1 cs2 cs3) cardId ColumnId.todo ColumnId.inProgress
      = board3 t1 t2 t3 (cs1.filter (fun c => decide (c.id ≠ cardId)))
          (targetAfter cs1 cs2 cardId) cs3 := by
  cases hf : cs1.find? (fun c => decide (c.id = cardId)) <;>
    simp [moveCard, handleDropCard, movingCardIn, board3, targetAfter, hcid, hf]

theorem moveCard_board3_td (t1 t2 t3 : String) (cs1 cs2 cs3 : List Card)
    (cardId : String) (hcid : cardId ≠ "") :
    moveCard (board3 t1 t2 t3 cs1 cs2 cs3) cardId ColumnId.todo ColumnId.done
      = board3 t1 t2 t3 (cs1.filter (fun c => decide (c.id ≠ cardId))) cs2
          (targetAfter cs1 cs3 cardId) := by
  cases hf : cs1.find? (fun c => decide (c.id = cardId)) <;>
    simp [moveCard, handleDropCard, movingCardIn, board3, targetAfter, hcid, hf]

theorem moveCard_board3_it (t1 t2 t3 : String) (cs1 cs2 cs3 : List Card)
    (cardId : String) (hcid : cardId ≠ "") :
    moveCard (board3 t1 t2 t3 cs1 cs2 cs3) cardId ColumnId.inProgress ColumnId.todo
      = board3 t1 t2 t3 (targetAfter cs2 cs1 cardId)
          (cs2.filter (fun c => decide (c.id ≠ cardId))) cs3 := by
  cases hf : cs2.find? (fun c => decide (c.id = cardId)) <;>
    simp [moveCard, handleDropCard, movingCardIn, board3, targetAfter, hcid, hf]

theorem moveCard_board3_id (t1 t2 t3 : String) (cs1 cs2 cs3 : List Card)
    (cardId : String) (hcid : cardId ≠ "") :
    moveCard (board3 t1 t2 t3 cs1 cs2 cs3) cardId ColumnId.inProgress ColumnId.done
      = board3 t1 t2 t3 cs1 (cs2.filter (fun c => decide (c.id ≠ cardId)))
          (targetAfter cs2 cs3 cardId) := by
  cases hf : cs2.find? (fun c => decide (c.id = cardId)) <;>
    simp [moveCard, handleDropCard, movingCardIn, board3, targetAfter, hcid, hf]

theorem moveCard_board3_dt (t1 t2 t3 : String) (cs1 cs2 cs3 : List Card)
    (cardId : String) (hcid : cardId ≠ "") :
    moveCard (board3 t1 t2 t3 cs1 cs2 cs3) cardId ColumnId.done ColumnId.todo
      = board3 t1 t2 t3 (targetAfter cs3 cs1 cardId) cs2
          (cs3.filter (fun c => decide (c.id ≠ cardId))) := by
  cases hf : cs3.find? (fun c => decide (c.id = cardId)) <;>
    simp [moveCard, handleDropCard, movingCardIn, board3, targetAfter, hcid, hf]

theorem moveCard_board3_di (t1 t2 t3 : String) (cs1 cs2 cs3 : List Card)
    (cardId : String) (hcid : cardId ≠ "") :
    moveCard (board3 t1 t2 t3 cs1 cs2 cs3) cardId ColumnId.done ColumnId.inProgress
      = board3 t1 t2 t3 cs1 (targetAfter cs3 cs2 cardId)
          (cs3.filter (fun c => decide (c.id ≠ cardId))) := by
  cases hf : cs3.find? (fun c => decide (c.id = cardId)) <;>
    simp [moveCard, handleDropCard, movingCardIn, board3, targetAfter, hcid, hf]

/-- Claim C6: on the three-column board, moving a card (present exactly once on
the whole board) to a different column preserves the total card count, and the
card occurs exactly once on the board afterwards; the move is the single pure
transition `moveCard`. -/
theorem claim_C6 (t1 t2 t3 : String) (cs1 cs2 cs3 : List Card) (cardId : String)
    (fromColumnId targetColumnId : ColumnId)
    (hcid : cardId ≠ "") (hne : fromColumnId ≠ targetColumnId)
    (hcount : countCard (board3 t1 t2 t3 cs1 cs2 cs3) cardId = 1) :
    totalCards (moveCard (board3 t1 t2 t3 cs1 cs2 cs3) cardId fromColumnId
        targetColumnId)
      = totalCards (board3 t1 t2 t3 cs1 cs2 cs3) ∧
    countCard (moveCard (board3 t1 t2 t3 cs1 cs2 cs3) cardId fromColumnId
        targetColumnId) cardId = 1 := by
  have hsum := hcount
  simp only [countCard, board3, List.map_cons, List.map_nil, List.sum_cons,
    List.sum_nil] at hsum
  cases fromColumnId with
  | todo =>
    cases targetColumnId with
    | todo => exact absurd rfl hne
    | inProgress =>
      rw [moveCard_board3_ti t1 t2 t3 cs1 cs2 cs3 cardId hcid]
      have hcore := targetAfter_core cs1 cs2 cardId (by omega)
      constructor
      · simp only [totalCards, board3, List.map_cons, List.map_nil,
          List.sum_cons, List.sum_nil]
        omega
      · simp only [countCard, board3, List.map_cons, List.map_nil,
          List.sum_cons, List.sum_nil]
        omega
    | done =>
      rw [moveCard_board3_td t1 t2 t3 cs1 cs2 cs3 cardId hcid]
      have hcore := targetAfter_core cs1 cs3 cardId (by omega)
      constructor
      · simp only [totalCards, board3, List.map_cons, List.map_nil,
          List.sum_cons, List.sum_nil]
        omega
      · simp only [countCard, board3, List.map_cons, List.map_nil,
          List.sum_cons, List.sum_nil]
        omega
  | inProgress =>
    cases targetColumnId with
    | todo =>
      rw [moveCard_board3_it t1 t2 t3 cs1 cs2 cs3 cardId hcid]
      have hcore := targetAfter_core cs2 cs1 cardId (by omega)
      constructor
      · simp only [totalCards, board3, List.map_cons, List.map_nil,
          List.sum_cons, List.sum_nil]
        omega
      · simp only [countCard, board3, List.map_cons, List.map_nil,
          List.sum_cons, List.sum_nil]
        omega
    | inProgress => exact absurd rfl hne
    | done =>
      rw [moveCard_board3_id t1 t2 t3 cs1 cs2 cs3 cardId hcid]
      have hcore := targetAfter_core cs2 cs3 cardId (by omega)
      constructor
      · simp only [totalCards, board3, List.map_cons, List.map_nil,
          List.sum_cons, List.sum_nil]
        omega
      · simp only [countCard, board3, List.map_cons, List.map_nil,
          List.sum_cons, List.sum_nil]
        omega
  | done =>
    cases targetColumnId with
    | todo =>
      rw [moveCard_board3_dt t1 t2 t3 cs1 cs2 cs3 cardId hcid]
      have hcore := targetAfter_core cs3 cs1 cardId (by omega)
      constructor
      · simp only [totalCards, board3, List.map_cons, List.map_nil,
          List.sum_cons, List.sum_nil]
        omega
      · simp only [countCard, board3, List.map_cons, List.map_nil,
          List.sum_cons, List.sum_nil]
        omega
    | inProgress =>
      rw [moveCard_board3_di t1 t2 t3 cs1 cs2 cs3 cardId hcid]
      have hcore := targetAfter_core cs3 cs2 cardId (by omega)
      constructor
      · simp only [totalCards, board3, List.map_cons, List.map_nil,
          List.sum_cons, List.sum_nil]
        omega
      · simp only [countCard, board3, List.map_cons, List.map_nil,
          List.sum_cons, List.sum_nil]
        omega
    | done => exact absurd rfl hne

/-- Witness for C6: moving card `a1` from the todo column to the done
column. -/
theorem claim_C6_witness :
    totalCards (moveCard (board3 "Todo" "Doing" "Done" [⟨"a1", "T"⟩] [] [])
        "a1" ColumnId.todo ColumnId.done)
      = totalCards (board3 "Todo" "Doing" "Done" [⟨"a1", "T"⟩] [] []) ∧
    countCard (moveCard (board3 "Todo" "Doing" "Done" [⟨"a1", "T"⟩] [] [])
        "a1" ColumnId.todo ColumnId.done) "a1" = 1 :=
  claim_C6 "Todo" "Doing" "Done" [⟨"a1", "T"⟩] [] [] "a1" ColumnId.todo
    ColumnId.done (by decide) (by decide)
    (by simp [countCard, board3, countCardIn])
